import Mathlib

/-!
Verification of the helm-factory / avionix chart tooling.

The development shallowly embeds the two components of the repository:

* `HelmYaml` — the structural serializer of
  `src/helm_factory/yaml/yaml_handling.py`: the recursive pruning pass
  `HelmYaml.__clean_nested` together with `HelmYaml.to_dict`.
* `HeapModel` — an explicit-heap rendering of `HelmYaml.to_dict`
  (`deepcopy` of the attribute map followed by the pruning pass), used to
  state that serialization does not mutate the original object graph.
* `Avionix` — the lifecycle orchestrator of
  `src/avionix/chart/chart_builder.py` (`ChartBuilder`): command-string
  construction, the install / upgrade / uninstall control flow with its
  error classification, the on-disk chart generation, and the per-kind
  template file naming.

Machinery the orchestrator calls that lives outside the provided sources
(`avionix.errors`, `avionix._process_utils`, `avionix.chart.utils`) is kept
abstract in a `World` of collaborator outcomes, or modelled from the spec
where noted.
-/

namespace HelmYaml

/-- A value of the serialized object graph: a scalar (`None`, `bool`, `int`,
`str`), an ordered sequence, a keyed mapping, or a tagged `HelmYaml` object
whose attribute map (`__dict__`) is a keyed mapping. -/
inductive Val where
  | vnone
  | bool (b : Bool)
  | int (n : Int)
  | str (s : String)
  | list (xs : List Val)
  | dict (kvs : List (String × Val))
  | obj (attrs : List (String × Val))
  deriving Repr

/-- Python truthiness on `Val`, as used by the `if not value: continue`
check in `HelmYaml.__clean_nested`: `None`, `False`, `0`, `""`, `[]` and
`{}` are falsy; instances of `HelmYaml` (which defines neither `__bool__`
nor `__len__`) are always truthy. -/
def isFalsy : Val → Bool
  | .vnone => true
  | .bool b => !b
  | .int n => n == 0
  | .str s => s == ""
  | .list xs => xs.isEmpty
  | .dict kvs => kvs.isEmpty
  | .obj _ => false

mutual

/-- The `isinstance(dictionary_or_list, list)` branch of
`HelmYaml.__clean_nested`: build a fresh list, skipping falsy values,
recursing into nested lists/dicts (kept only if the cleaned result is
truthy, i.e. non-empty; the source recomputes `__clean_nested(value)` when
appending, which is a pure recomputation), converting nested `HelmYaml`
objects via `to_dict` (kept only if non-empty), and passing every other
value through unchanged. -/
def cleanNestedList : List Val → List Val
  | [] => []
  | v :: rest =>
    if isFalsy v then cleanNestedList rest
    else
      match v with
      | .list xs =>
        if (cleanNestedList xs).isEmpty then cleanNestedList rest
        else .list (cleanNestedList xs) :: cleanNestedList rest
      | .dict kvs =>
        if (cleanNestedDict kvs).isEmpty then cleanNestedList rest
        else .dict (cleanNestedDict kvs) :: cleanNestedList rest
      | .obj attrs =>
        if (cleanNestedDict attrs).isEmpty then cleanNestedList rest
        else .dict (cleanNestedDict attrs) :: cleanNestedList rest
      | w => w :: cleanNestedList rest

/-- The `isinstance(dictionary_or_list, dict)` branch of
`HelmYaml.__clean_nested`: same per-value recursion keyed by the original
key; an entry whose value is falsy, or whose cleaned value is empty, is
omitted entirely (the key is not kept). -/
def cleanNestedDict : List (String × Val) → List (String × Val)
  | [] => []
  | (k, v) :: rest =>
    if isFalsy v then cleanNestedDict rest
    else
      match v with
      | .list xs =>
        if (cleanNestedList xs).isEmpty then cleanNestedDict rest
        else (k, .list (cleanNestedList xs)) :: cleanNestedDict rest
      | .dict kvs =>
        if (cleanNestedDict kvs).isEmpty then cleanNestedDict rest
        else (k, .dict (cleanNestedDict kvs)) :: cleanNestedDict rest
      | .obj attrs =>
        if (cleanNestedDict attrs).isEmpty then cleanNestedDict rest
        else (k, .dict (cleanNestedDict attrs)) :: cleanNestedDict rest
      | w => (k, w) :: cleanNestedDict rest

end

/-- `HelmYaml.to_dict`: clean the object's attribute map.  The source first
takes `deepcopy(self.__dict__)`; on pure values the copy is the identity
(the heap-level account of the copy is in `HeapModel`). -/
def toDict (attrs : List (String × Val)) : List (String × Val) :=
  cleanNestedDict attrs

mutual

/-- The keep/drop rule of the spec, amended to the observed behavior
(design note §9 of the spec): a value is dropped exactly when it is falsy —
null, `False`, numeric zero, the empty string, an empty sequence or an
empty mapping — or when it is a sequence, mapping, or tagged object whose
cleaned content is empty; a kept container is replaced by its cleaned
content, and a kept tagged object by its cleaned attribute mapping. -/
def specKeepVal : Val → Option Val
  | .vnone => none
  | .bool b => if b then some (.bool b) else none
  | .int n => if n = 0 then none else some (.int n)
  | .str s => if s = "" then none else some (.str s)
  | .list xs =>
    if (specKeepList xs).isEmpty then none else some (.list (specKeepList xs))
  | .dict kvs =>
    if (specKeepEntries kvs).isEmpty then none
    else some (.dict (specKeepEntries kvs))
  | .obj attrs =>
    if (specKeepEntries attrs).isEmpty then none
    else some (.dict (specKeepEntries attrs))

/-- Sequence cleaning as the spec words it: each element is kept or dropped
according to `specKeepVal`, in order. -/
def specKeepList : List Val → List Val
  | [] => []
  | v :: r =>
    match specKeepVal v with
    | none => specKeepList r
    | some w => w :: specKeepList r

/-- Mapping cleaning as the spec words it: each entry's value is kept or
dropped according to `specKeepVal`; a dropped entry is omitted key and
all. -/
def specKeepEntries : List (String × Val) → List (String × Val)
  | [] => []
  | (k, v) :: r =>
    match specKeepVal v with
    | none => specKeepEntries r
    | some w => (k, w) :: specKeepEntries r

end

end HelmYaml

namespace HeapModel

/-- A Python reference value: an immutable scalar held directly, or a
reference to a heap cell (a list, dict, or `HelmYaml` instance). -/
inductive HVal where
  | hnone
  | hbool (b : Bool)
  | hint (n : Int)
  | hstr (s : String)
  | href (a : Nat)
  deriving Repr, DecidableEq

/-- A heap cell: a mutable list, a mutable dict, or a `HelmYaml` object
holding its attribute map `__dict__`. -/
inductive Cell where
  | clist (xs : List HVal)
  | cdict (kvs : List (String × HVal))
  | cobj (attrs : List (String × HVal))
  deriving Repr, DecidableEq

/-- The heap: cell addresses are indices into the list. -/
abbrev Heap := List Cell

/-- Allocate a fresh cell at the next free address. -/
def alloc (h : Heap) (c : Cell) : Heap × Nat :=
  (h ++ [c], h.length)

mutual

/-- `copy.deepcopy` on a reference value: scalars are returned as-is,
references are followed and their cells recursively copied into freshly
allocated cells.  Fuel bounds the recursion depth (the source assumes the
graph is acyclic); `none` means the fuel ran out or a reference dangled. -/
def deepcopyVal : Nat → Heap → HVal → Option (Heap × HVal)
  | 0, _, _ => none
  | fuel + 1, h, HVal.href a =>
    match h[a]? with
    | some (Cell.clist xs) =>
      match deepcopyList fuel h xs with
      | some (h1, ys) =>
        let p := alloc h1 (Cell.clist ys)
        some (p.1, HVal.href p.2)
      | none => none
    | some (Cell.cdict kvs) =>
      match deepcopyEntries fuel h kvs with
      | some (h1, ws) =>
        let p := alloc h1 (Cell.cdict ws)
        some (p.1, HVal.href p.2)
      | none => none
    | some (Cell.cobj attrs) =>
      match deepcopyEntries fuel h attrs with
      | some (h1, ws) =>
        let p := alloc h1 (Cell.cobj ws)
        some (p.1, HVal.href p.2)
      | none => none
    | none => none
  | _ + 1, h, v => some (h, v)

/-- `deepcopy` of the elements of a list cell, left to right. -/
def deepcopyList : Nat → Heap → List HVal → Option (Heap × List HVal)
  | 0, _, _ => none
  | _ + 1, h, [] => some (h, [])
  | fuel + 1, h, v :: rest =>
    match deepcopyVal fuel h v with
    | some (h1, w) =>
      match deepcopyList fuel h1 rest with
      | some (h2, ws) => some (h2, w :: ws)
      | none => none
    | none => none

/-- `deepcopy` of the entries of a dict or attribute map, in order (string
keys are immutable and are reused). -/
def deepcopyEntries :
    Nat → Heap → List (String × HVal) → Option (Heap × List (String × HVal))
  | 0, _, _ => none
  | _ + 1, h, [] => some (h, [])
  | fuel + 1, h, (k, v) :: rest =>
    match deepcopyVal fuel h v with
    | some (h1, w) =>
      match deepcopyEntries fuel h1 rest with
      | some (h2, ws) => some (h2, (k, w) :: ws)
      | none => none
    | none => none

end

mutual

/-- Read a reference value out of the heap as a plain `HelmYaml.Val` tree
(the value a Python traversal of the structure observes). -/
def readVal : Nat → Heap → HVal → Option HelmYaml.Val
  | 0, _, _ => none
  | _ + 1, _, HVal.hnone => some HelmYaml.Val.vnone
  | _ + 1, _, HVal.hbool b => some (HelmYaml.Val.bool b)
  | _ + 1, _, HVal.hint n => some (HelmYaml.Val.int n)
  | _ + 1, _, HVal.hstr s => some (HelmYaml.Val.str s)
  | fuel + 1, h, HVal.href a =>
    match h[a]? with
    | some (Cell.clist xs) =>
      match readList fuel h xs with
      | some vs => some (HelmYaml.Val.list vs)
      | none => none
    | some (Cell.cdict kvs) =>
      match readEntries fuel h kvs with
      | some ws => some (HelmYaml.Val.dict ws)
      | none => none
    | some (Cell.cobj attrs) =>
      match readEntries fuel h attrs with
      | some ws => some (HelmYaml.Val.obj ws)
      | none => none
    | none => none

/-- Read the elements of a list cell. -/
def readList : Nat → Heap → List HVal → Option (List HelmYaml.Val)
  | 0, _, _ => none
  | _ + 1, _, [] => some []
  | fuel + 1, h, v :: rest =>
    match readVal fuel h v with
    | some w =>
      match readList fuel h rest with
      | some ws => some (w :: ws)
      | none => none
    | none => none

/-- Read the entries of a dict or attribute-map cell. -/
def readEntries :
    Nat → Heap → List (String × HVal) → Option (List (String × HelmYaml.Val))
  | 0, _, _ => none
  | _ + 1, _, [] => some []
  | fuel + 1, h, (k, v) :: rest =>
    match readVal fuel h v with
    | some w =>
      match readEntries fuel h rest with
      | some ws => some ((k, w) :: ws)
      | none => none
    | none => none

end

/-- `HelmYaml.to_dict` on the heap: look up the object's attribute map
`__dict__`, `deepcopy` it (allocating fresh cells), and run the pruning
pass on the copied structure.  `__clean_nested` itself only reads its
argument and builds fresh plain containers, never assigning into existing
objects, so its output is returned as plain data. -/
def toDictOnHeap (fuel : Nat) (h : Heap) (objAddr : Nat) :
    Option (Heap × List (String × HelmYaml.Val)) :=
  match h[objAddr]? with
  | some (Cell.cobj attrs) =>
    match deepcopyEntries fuel h attrs with
    | some (h1, attrsCopy) =>
      match readEntries fuel h1 attrsCopy with
      | some pureAttrs => some (h1, HelmYaml.cleanNestedDict pureAttrs)
      | none => none
    | none => none
  | _ => none

end HeapModel

namespace Avionix

/-- The slice of `ChartInfo` the builder consults: the chart name (the
other metadata fields are only ever serialized into `Chart.yaml`, whose
content no claim depends on). -/
structure ChartInfo where
  name : String
  deriving Repr, DecidableEq

/-- `ChartBuilder.__init__`: the constructor state.  `kubernetesObjectKinds`
lists the `kind` of each supplied kubernetes object in order (the only
attribute `generate_chart` consults for naming).  `cwd` is the process
working directory, used to model `pathlib.Path.resolve`. -/
structure ChartBuilder where
  chartInfo : ChartInfo
  kubernetesObjectKinds : List String
  outputDirectory : Option String
  keepChart : Bool
  namespaceOpt : Option String
  cwd : String
  deriving Repr, DecidableEq

/-- `self.chart_folder_path`: `Path(chart_info.name)`, rebased under
`output_directory` when one is given (`__init__`). -/
def ChartBuilder.chartFolderPath (b : ChartBuilder) : String :=
  match b.outputDirectory with
  | none => b.chartInfo.name
  | some d => d ++ "/" ++ b.chartInfo.name

/-- Prefix test on strings via their character lists (used instead of
`String.isPrefixOf` so that concrete path computations reduce). -/
def strHasPrefix (p s : String) : Bool :=
  p.data.isPrefixOf s.data

/-- Suffix test on strings via their character lists. -/
def strHasSuffix (p s : String) : Bool :=
  p.data.isSuffixOf s.data

/-- Models `pathlib.Path.resolve()` on POSIX: an absolute path is returned
unchanged, a relative one is anchored at the working directory. -/
def resolvePath (cwd p : String) : String :=
  if p.data.head? = some '/' then p else cwd ++ "/" ++ p

/-- Caller-supplied helm options: an insertion-ordered mapping from flag
name to optional value (`Optional[Dict[str, Optional[str]]]`). -/
abbrev HelmOptions := List (String × Option String)

/-- `ChartBuilder.__parse_options`: for each key append ` --{key}`, and, when
the mapped value is truthy (neither `None` nor the empty string), a space
and the literal value; `None` renders as the empty string. -/
def parseOptions : Option HelmOptions → String
  | none => ""
  | some options =>
    options.foldl
      (fun acc kv =>
        let withFlag := acc ++ " --" ++ kv.1
        match kv.2 with
        | none => withFlag
        | some v => if v = "" then withFlag else withFlag ++ " " ++ v)
      ""

/-- `ChartBuilder.__handle_namespace`: append ` -n {namespace}` when a
namespace was configured at construction time, otherwise return the command
unchanged. -/
def ChartBuilder.handleNamespace (b : ChartBuilder) (command : String) : String :=
  match b.namespaceOpt with
  | some ns => command ++ " -n " ++ ns
  | none => command

/-- `ChartBuilder.__get_helm_install_command`:
`helm install {name} {chart_folder_path.resolve()}` with the namespace flag
and the rendered options appended. -/
def ChartBuilder.getHelmInstallCommand
    (b : ChartBuilder) (options : Option HelmOptions) : String :=
  b.handleNamespace
      ("helm install " ++ b.chartInfo.name ++ " "
        ++ resolvePath b.cwd b.chartFolderPath)
    ++ parseOptions options

/-- `ChartBuilder.__get_helm_uninstall_command`: `helm uninstall {name}` with
the namespace flag and the rendered options appended. -/
def ChartBuilder.getHelmUninstallCommand
    (b : ChartBuilder) (options : Option HelmOptions) : String :=
  b.handleNamespace ("helm uninstall " ++ b.chartInfo.name)
    ++ parseOptions options

/-- `ChartBuilder.__get_helm_upgrade_command`:
`helm upgrade {name} {chart_folder_path}` (the source does not resolve the
path here) with the namespace flag and the rendered options appended. -/
def ChartBuilder.getHelmUpgradeCommand
    (b : ChartBuilder) (options : Option HelmOptions) : String :=
  b.handleNamespace
      ("helm upgrade " ++ b.chartInfo.name ++ " " ++ b.chartFolderPath)
    ++ parseOptions options

/-- The `helm dependency update {chart_folder_path.resolve()}` command built
inline in `ChartBuilder.upgrade_chart`; note it is not passed through
`__handle_namespace`. -/
def ChartBuilder.getDependencyUpdateCommand (b : ChartBuilder) : String :=
  "helm dependency update " ++ resolvePath b.cwd b.chartFolderPath

/-- Modelled from the spec: the release-listing query issued by the
`is_installed` property ("queries the tool for a tabular listing of
releases (optionally namespace-scoped)").  The code that builds it,
`get_helm_installations` in `avionix.chart.utils`, is not under `src/`. -/
def getHelmListCommand (namespaceOpt : Option String) : String :=
  match namespaceOpt with
  | some ns => "helm list -n " ++ ns
  | none => "helm list"

/-- The typed errors of the orchestrator.  `factoryError` stands for the
specific error type returned by the `ErrorFactory` collaborator
(`avionix.errors`, outside `src/`, modelled from the spec as a text-pattern
lookup); `chartNotInstalledError` for `ChartNotInstalledError`;
`postUninstallError` for the generic error of
`post_uninstall_handle_error`; `calledProcessError` for an uncaught
`subprocess.CalledProcessError` carrying the tool's combined output. -/
inductive HelmError where
  | factoryError (tag : String)
  | chartNotInstalledError (msg : String)
  | postUninstallError (msg : String)
  | calledProcessError (output : String)
  deriving Repr, DecidableEq

/-- The observable interactions of one orchestrator operation:
materializing the chart directory, registering dependency repositories,
deleting the chart directory, querying the release listing, and invoking a
helm command line. -/
inductive Event where
  | generateChart
  | updateDependencies
  | deleteChartDirectory
  | listReleases
  | helmCommand (cmd : String)
  deriving Repr, DecidableEq

abbrev Trace := List Event

/-- Modelled from the spec: the outcomes of the external collaborators for
one operation.  `custom_check_output` (not under `src/`) "invokes a command
line and captures combined output plus exit status", raising
`CalledProcessError` with that output on failure; each `...Outcome` field is
`some output` when the corresponding invocation fails with that output.
`isInstalled` is the presence reported by the release listing, and
`classify` is the `ErrorFactory` pattern lookup: `some tag` when the failure
text matches a known pattern. -/
structure World where
  isInstalled : Bool
  installOutcome : Option String
  upgradeOutcome : Option String
  uninstallOutcome : Option String
  dependencyUpdateOutcome : Option String
  classify : String → Option String

/-- `ChartBuilder.run_helm_install`: issue the install command; a tool
failure surfaces as `CalledProcessError`. -/
def runHelmInstall (w : World) (b : ChartBuilder) (options : Option HelmOptions) :
    Trace × Except HelmError Unit :=
  ([Event.helmCommand (b.getHelmInstallCommand options)],
    match w.installOutcome with
    | none => Except.ok ()
    | some out => Except.error (HelmError.calledProcessError out))

/-- `ChartBuilder.run_helm_uninstall`: the source calls
`custom_check_output(self.__get_helm_uninstall_command())`, passing no
arguments, so the `options` parameter it accepts is never forwarded to the
command builder. -/
def runHelmUninstall (w : World) (b : ChartBuilder)
    (_options : Option HelmOptions) : Trace × Except HelmError Unit :=
  ([Event.helmCommand (b.getHelmUninstallCommand none)],
    match w.uninstallOutcome with
    | none => Except.ok ()
    | some out => Except.error (HelmError.calledProcessError out))

/-- `ChartBuilder.run_helm_upgrade`: issue the upgrade command. -/
def runHelmUpgrade (w : World) (b : ChartBuilder) (options : Option HelmOptions) :
    Trace × Except HelmError Unit :=
  ([Event.helmCommand (b.getHelmUpgradeCommand options)],
    match w.upgradeOutcome with
    | none => Except.ok ()
    | some out => Except.error (HelmError.calledProcessError out))

/-- `ChartBuilder.__check_if_installed`: query the release listing; raise
`ChartNotInstalledError` when the target release is absent. -/
def checkIfInstalled (w : World) (b : ChartBuilder) :
    Trace × Except HelmError Unit :=
  ([Event.listReleases],
    if w.isInstalled then Except.ok ()
    else
      Except.error (HelmError.chartNotInstalledError
        ("Error: chart \"" ++ b.chartInfo.name ++ "\" is not installed")))

/-- `ChartBuilder.__handle_uninstallation` (the body of `uninstall_chart`):
check the release is present, then run the uninstall command. -/
def handleUninstallation (w : World) (b : ChartBuilder)
    (options : Option HelmOptions) : Trace × Except HelmError Unit :=
  match checkIfInstalled w b with
  | (t1, Except.error e) => (t1, Except.error e)
  | (t1, Except.ok _) =>
    match runHelmUninstall w b options with
    | (t2, r2) => (t1 ++ t2, r2)

/-- `ChartBuilder.uninstall_chart`. -/
def uninstallChart (w : World) (b : ChartBuilder)
    (options : Option HelmOptions) : Trace × Except HelmError Unit :=
  handleUninstallation w b options

/-- `ChartBuilder.__handle_installation`: run the install; on
`CalledProcessError`, classify the decoded output — a matching typed error
is raised as-is; otherwise, if the release is reported present, run a
cleanup `uninstall_chart()` (whose own failure propagates) before raising
the generic post-failure error. -/
def handleInstallation (w : World) (b : ChartBuilder)
    (options : Option HelmOptions) : Trace × Except HelmError Unit :=
  match runHelmInstall w b options with
  | (t1, Except.ok _) => (t1, Except.ok ())
  | (t1, Except.error (HelmError.calledProcessError decoded)) =>
    match w.classify decoded with
    | some tag => (t1, Except.error (HelmError.factoryError tag))
    | none =>
      if w.isInstalled then
        match uninstallChart w b none with
        | (t2, Except.ok _) =>
          (t1 ++ [Event.listReleases] ++ t2,
            Except.error (HelmError.postUninstallError decoded))
        | (t2, Except.error e) =>
          (t1 ++ [Event.listReleases] ++ t2, Except.error e)
      else
        (t1 ++ [Event.listReleases],
          Except.error (HelmError.postUninstallError decoded))
  | (t1, Except.error e) => (t1, Except.error e)

/-- `ChartBuilder.install_chart`: generate the chart, update dependencies,
run the installation handler, and only after it returns normally delete the
generated chart directory (unless `keep_chart`). -/
def installChart (w : World) (b : ChartBuilder)
    (options : Option HelmOptions) : Trace × Except HelmError Unit :=
  let t0 := [Event.generateChart, Event.updateDependencies]
  match handleInstallation w b options with
  | (t1, Except.ok _) =>
    (t0 ++ t1 ++ (if b.keepChart then [] else [Event.deleteChartDirectory]),
      Except.ok ())
  | (t1, Except.error e) => (t0 ++ t1, Except.error e)

/-- `ChartBuilder.__handle_upgrade`: run the upgrade; on
`CalledProcessError`, a matching typed error is raised as-is, otherwise the
generic post-failure error — never a cleanup uninstall. -/
def handleUpgrade (w : World) (b : ChartBuilder)
    (options : Option HelmOptions) : Trace × Except HelmError Unit :=
  match runHelmUpgrade w b options with
  | (t1, Except.ok _) => (t1, Except.ok ())
  | (t1, Except.error (HelmError.calledProcessError decoded)) =>
    match w.classify decoded with
    | some tag => (t1, Except.error (HelmError.factoryError tag))
    | none => (t1, Except.error (HelmError.postUninstallError decoded))
  | (t1, Except.error e) => (t1, Except.error e)

/-- `ChartBuilder.upgrade_chart`: check the release is present (raising
`ChartNotInstalledError` otherwise, before anything else); then regenerate
the chart and update dependencies; if the options carry a
`dependency-update` key, run `helm dependency update` (an uncaught failure
propagates) and remove that key; finally run the upgrade handler. -/
def upgradeChart (w : World) (b : ChartBuilder)
    (options : Option HelmOptions) : Trace × Except HelmError Unit :=
  match checkIfInstalled w b with
  | (t1, Except.error e) => (t1, Except.error e)
  | (t1, Except.ok _) =>
    let t2 := t1 ++ [Event.generateChart, Event.updateDependencies]
    match options with
    | some opts =>
      if opts.any (fun kv => kv.1 = "dependency-update") then
        let t3 := t2 ++ [Event.helmCommand b.getDependencyUpdateCommand]
        match w.dependencyUpdateOutcome with
        | some out => (t3, Except.error (HelmError.calledProcessError out))
        | none =>
          -- `del options["dependency-update"]` removes the key, keeping the
          -- order of the remaining (unique) keys
          let opts2 := opts.filter (fun kv => kv.1 ≠ "dependency-update")
          match handleUpgrade w b (some opts2) with
          | (t4, r4) => (t3 ++ t4, r4)
      else
        match handleUpgrade w b (some opts) with
        | (t4, r4) => (t2 ++ t4, r4)
    | none =>
      match handleUpgrade w b none with
      | (t4, r4) => (t2 ++ t4, r4)

end Avionix

namespace Avionix

/-- The filesystem as the set of regular-file paths present, written
relative to the process working directory (directories are implicit). -/
abbrev FileSystem := List String

/-- Writing a file: creates it, or overwrites it in place when it already
exists. -/
def writeFile (fs : FileSystem) (p : String) : FileSystem :=
  if p ∈ fs then fs else p :: fs

/-- `ChartBuilder.__delete_chart_directory`:
`if os.path.exists(self.chart_info.name): shutil.rmtree(self.chart_info.name)` —
the source passes the bare chart name (a path relative to the working
directory), not `self.chart_folder_path`, so only files under
`{chart_info.name}/` are removed. -/
def ChartBuilder.deleteChartDirectoryFS (b : ChartBuilder) (fs : FileSystem) :
    FileSystem :=
  fs.filter (fun p => !(strHasPrefix (b.chartInfo.name ++ "/") p))

/-- The per-kind counter of `generate_chart`, i.e. the `kind_count`
dictionary: keys are kinds, values the counter last assigned. -/
def lookupCount : List (String × Nat) → String → Option Nat
  | [], _ => none
  | (k, m) :: rest, kind => if k = kind then some m else lookupCount rest kind

/-- `kind_count[kind] = n`: overwrite the kind's entry, or append a new
one. -/
def updateCount : List (String × Nat) → String → Nat → List (String × Nat)
  | [], kind, n => [(kind, n)]
  | (k, m) :: rest, kind, n =>
    if k = kind then (k, n) :: rest else (k, m) :: updateCount rest kind n

/-- The filename loop of `ChartBuilder.generate_chart`: for each object in
order, a first-seen kind gets counter `0`, a seen kind gets its previous
counter plus one, and the object's file is named
`{kind}-{counter}.yaml`. -/
def templateFileNames (kindCount : List (String × Nat)) :
    List String → List String
  | [] => []
  | kind :: rest =>
    let n : Nat :=
      match lookupCount kindCount kind with
      | none => 0
      | some m => m + 1
    (kind ++ "-" ++ toString n ++ ".yaml")
      :: templateFileNames (updateCount kindCount kind n) rest

/-- `ChartBuilder.generate_chart` on the filesystem: delete the (working
directory relative) chart-name directory, then write `Chart.yaml`, one
template file per object under `templates/`, and `values.yaml`, all under
`chart_folder_path`. -/
def ChartBuilder.generateChartFS (b : ChartBuilder) (fs : FileSystem) :
    FileSystem :=
  let fs1 := b.deleteChartDirectoryFS fs
  let fs2 := writeFile fs1 (b.chartFolderPath ++ "/Chart.yaml")
  let names := templateFileNames [] b.kubernetesObjectKinds
  let fs3 :=
    names.foldl (fun acc nm => writeFile acc (b.chartFolderPath ++ "/templates/" ++ nm)) fs2
  writeFile fs3 (b.chartFolderPath ++ "/values.yaml")

/-- Occurrences of a kind in a list of kinds. -/
def countKind (kind : String) : List String → Nat
  | [] => 0
  | k :: rest => (if k = kind then 1 else 0) + countKind kind rest

/-- The spec's filename assignment: each object is named
`{kind}-{n}.yaml` where `n` counts the earlier objects of the same kind
(`seen` accumulates the kinds already processed). -/
def specTemplateNames (seen : List String) : List String → List String
  | [] => []
  | kind :: rest =>
    (kind ++ "-" ++ toString (countKind kind seen) ++ ".yaml")
      :: specTemplateNames (seen ++ [kind]) rest

/-- The filenames assigned to the objects of one kind, in order: pairs the
kind list with the name list produced for it and keeps the names at the
positions of the given kind. -/
def namesForKind (kind : String) : List String → List String → List String
  | [], _ => []
  | _, [] => []
  | k :: ks, nm :: nms =>
    if k = kind then nm :: namesForKind kind ks nms
    else namesForKind kind ks nms

end Avionix

namespace HelmYaml

theorem specKeepList_nil : specKeepList [] = [] := by
  simp [specKeepList]

theorem specKeepEntries_nil : specKeepEntries [] = [] := by
  simp [specKeepEntries]

mutual

theorem cleanNestedList_eq_spec : ∀ xs, cleanNestedList xs = specKeepList xs
  | [] => by simp [cleanNestedList, specKeepList]
  | v :: rest => by
    have ih := cleanNestedList_eq_spec rest
    cases v with
    | vnone => simp [cleanNestedList, specKeepList, specKeepVal, isFalsy, ih]
    | bool b =>
      cases b <;> simp [cleanNestedList, specKeepList, specKeepVal, isFalsy, ih]
    | int n =>
      by_cases h : n = 0 <;>
        simp [cleanNestedList, specKeepList, specKeepVal, isFalsy, h, ih]
    | str s =>
      by_cases h : s = "" <;>
        simp [cleanNestedList, specKeepList, specKeepVal, isFalsy, h, ih]
    | list xs =>
      have ihx := cleanNestedList_eq_spec xs
      simp only [cleanNestedList, specKeepList, specKeepVal, isFalsy]
      rw [ihx, ih]
      by_cases hc : (specKeepList xs).isEmpty
      · simp [hc]
      · have hx : xs.isEmpty = false := by
          cases xs with
          | nil => rw [specKeepList_nil] at hc; simp at hc
          | cons a l => rfl
        simp [hc, hx]
    | dict kvs =>
      have ihk := cleanNestedDict_eq_spec kvs
      simp only [cleanNestedList, specKeepList, specKeepVal, isFalsy]
      rw [ihk, ih]
      by_cases hc : (specKeepEntries kvs).isEmpty
      · simp [hc]
      · have hx : kvs.isEmpty = false := by
          cases kvs with
          | nil => rw [specKeepEntries_nil] at hc; simp at hc
          | cons a l => rfl
        simp [hc, hx]
    | obj attrs =>
      have ihk := cleanNestedDict_eq_spec attrs
      simp only [cleanNestedList, specKeepList, specKeepVal, isFalsy]
      rw [ihk, ih]
      by_cases hc : (specKeepEntries attrs).isEmpty <;> simp [hc]

theorem cleanNestedDict_eq_spec : ∀ kvs, cleanNestedDict kvs = specKeepEntries kvs
  | [] => by simp [cleanNestedDict, specKeepEntries]
  | (k, v) :: rest => by
    have ih := cleanNestedDict_eq_spec rest
    cases v with
    | vnone => simp [cleanNestedDict, specKeepEntries, specKeepVal, isFalsy, ih]
    | bool b =>
      cases b <;> simp [cleanNestedDict, specKeepEntries, specKeepVal, isFalsy, ih]
    | int n =>
      by_cases h : n = 0 <;>
        simp [cleanNestedDict, specKeepEntries, specKeepVal, isFalsy, h, ih]
    | str s =>
      by_cases h : s = "" <;>
        simp [cleanNestedDict, specKeepEntries, specKeepVal, isFalsy, h, ih]
    | list xs =>
      have ihx := cleanNestedList_eq_spec xs
      simp only [cleanNestedDict, specKeepEntries, specKeepVal, isFalsy]
      rw [ihx, ih]
      by_cases hc : (specKeepList xs).isEmpty
      · simp [hc]
      · have hx : xs.isEmpty = false := by
          cases xs with
          | nil => rw [specKeepList_nil] at hc; simp at hc
          | cons a l => rfl
        simp [hc, hx]
    | dict kvs =>
      have ihk := cleanNestedDict_eq_spec kvs
      simp only [cleanNestedDict, specKeepEntries, specKeepVal, isFalsy]
      rw [ihk, ih]
      by_cases hc : (specKeepEntries kvs).isEmpty
      · simp [hc]
      · have hx : kvs.isEmpty = false := by
          cases kvs with
          | nil => rw [specKeepEntries_nil] at hc; simp at hc
          | cons a l => rfl
        simp [hc, hx]
    | obj attrs =>
      have ihk := cleanNestedDict_eq_spec attrs
      simp only [cleanNestedDict, specKeepEntries, specKeepVal, isFalsy]
      rw [ihk, ih]
      by_cases hc : (specKeepEntries attrs).isEmpty <;> simp [hc]

end

mutual

theorem specKeepVal_idem : ∀ v w, specKeepVal v = some w → specKeepVal w = some w
  | .vnone, w => by simp [specKeepVal]
  | .bool b, w => by
    cases b <;> simp [specKeepVal] <;> rintro rfl <;> simp [specKeepVal]
  | .int n, w => by
    by_cases h : n = 0 <;> simp [specKeepVal, h] <;> rintro rfl <;>
      simp [specKeepVal, h]
  | .str s, w => by
    by_cases h : s = "" <;> simp [specKeepVal, h] <;> rintro rfl <;>
      simp [specKeepVal, h]
  | .list xs, w => by
    have ihx := specKeepList_idem xs
    by_cases hc : (specKeepList xs).isEmpty
    · simp [specKeepVal, hc]
    · simp [specKeepVal, hc]
      rintro rfl
      simp [specKeepVal, ihx, hc]
  | .dict kvs, w => by
    have ihk := specKeepEntries_idem kvs
    by_cases hc : (specKeepEntries kvs).isEmpty
    · simp [specKeepVal, hc]
    · simp [specKeepVal, hc]
      rintro rfl
      simp [specKeepVal, ihk, hc]
  | .obj attrs, w => by
    have ihk := specKeepEntries_idem attrs
    by_cases hc : (specKeepEntries attrs).isEmpty
    · simp [specKeepVal, hc]
    · simp [specKeepVal, hc]
      rintro rfl
      simp [specKeepVal, ihk, hc]

theorem specKeepList_idem : ∀ xs, specKeepList (specKeepList xs) = specKeepList xs
  | [] => by simp [specKeepList]
  | v :: rest => by
    have ih := specKeepList_idem rest
    rcases hv : specKeepVal v with _ | w
    · simp only [specKeepList, hv]
      exact ih
    · have hw := specKeepVal_idem v w hv
      simp only [specKeepList, hv, hw]
      rw [ih]

theorem specKeepEntries_idem :
    ∀ kvs, specKeepEntries (specKeepEntries kvs) = specKeepEntries kvs
  | [] => by simp [specKeepEntries]
  | (k, v) :: rest => by
    have ih := specKeepEntries_idem rest
    rcases hv : specKeepVal v with _ | w
    · simp only [specKeepEntries, hv]
      exact ih
    · have hw := specKeepVal_idem v w hv
      simp only [specKeepEntries, hv, hw]
      rw [ih]

end

end HelmYaml

/-- C1 counterexample: the claim says numeric zero and boolean `False` are
kept, but `__clean_nested` tests plain truthiness, so the integer `0` is
dropped from a sequence and an entry whose value is `False` is dropped from
a mapping. -/
theorem clean_drops_zero_and_false :
    HelmYaml.cleanNestedList [HelmYaml.Val.int 0] = []
    ∧ HelmYaml.cleanNestedList [HelmYaml.Val.int 0] ≠ [HelmYaml.Val.int 0]
    ∧ HelmYaml.cleanNestedDict [("a", HelmYaml.Val.bool false)] = []
    ∧ HelmYaml.cleanNestedDict [("a", HelmYaml.Val.bool false)]
        ≠ [("a", HelmYaml.Val.bool false)] := by
  refine ⟨?_, ?_, ?_, ?_⟩ <;>
    simp [HelmYaml.cleanNestedList, HelmYaml.cleanNestedDict, HelmYaml.isFalsy]

/-- C1 (amended): the cleaning pass drops a value if and only if it is
falsy — null, boolean `False`, numeric zero, the empty string, an empty
sequence or an empty mapping — or it is a sequence, mapping, or tagged
object whose cleaned content is empty; every other value is kept, and a
mapping entry whose value is dropped is omitted entirely (key omitted, not
kept with an empty value): the code's pass coincides with the
`specKeep` rules, which state exactly that. -/
theorem cleaning_drop_rule :
    (∀ v, HelmYaml.isFalsy v = true ↔
      (v = HelmYaml.Val.vnone ∨ v = HelmYaml.Val.bool false
        ∨ v = HelmYaml.Val.int 0 ∨ v = HelmYaml.Val.str ""
        ∨ v = HelmYaml.Val.list [] ∨ v = HelmYaml.Val.dict []))
    ∧ (∀ xs, HelmYaml.cleanNestedList xs = HelmYaml.specKeepList xs)
    ∧ (∀ kvs, HelmYaml.cleanNestedDict kvs = HelmYaml.specKeepEntries kvs) := by
  refine ⟨?_, HelmYaml.cleanNestedList_eq_spec, HelmYaml.cleanNestedDict_eq_spec⟩
  intro v
  cases v with
  | vnone => simp [HelmYaml.isFalsy]
  | bool b => cases b <;> simp [HelmYaml.isFalsy]
  | int n => simp [HelmYaml.isFalsy]
  | str s => simp [HelmYaml.isFalsy]
  | list xs => simp [HelmYaml.isFalsy, List.isEmpty_iff]
  | dict kvs => simp [HelmYaml.isFalsy, List.isEmpty_iff]
  | obj attrs => simp [HelmYaml.isFalsy]

/-- C7: the pruning pass is idempotent — cleaning an already-cleaned
sequence or mapping changes nothing, and serializing an already-serialized
attribute map (`to_dict`) reproduces it. -/
theorem cleaning_idempotent :
    (∀ xs, HelmYaml.cleanNestedList (HelmYaml.cleanNestedList xs)
        = HelmYaml.cleanNestedList xs)
    ∧ (∀ kvs, HelmYaml.cleanNestedDict (HelmYaml.cleanNestedDict kvs)
        = HelmYaml.cleanNestedDict kvs)
    ∧ (∀ attrs, HelmYaml.toDict (HelmYaml.toDict attrs) = HelmYaml.toDict attrs) := by
  have hl : ∀ xs, HelmYaml.cleanNestedList (HelmYaml.cleanNestedList xs)
      = HelmYaml.cleanNestedList xs := by
    intro xs
    rw [HelmYaml.cleanNestedList_eq_spec, HelmYaml.cleanNestedList_eq_spec,
      HelmYaml.specKeepList_idem]
  have hd : ∀ kvs, HelmYaml.cleanNestedDict (HelmYaml.cleanNestedDict kvs)
      = HelmYaml.cleanNestedDict kvs := by
    intro kvs
    rw [HelmYaml.cleanNestedDict_eq_spec, HelmYaml.cleanNestedDict_eq_spec,
      HelmYaml.specKeepEntries_idem]
  exact ⟨hl, hd, fun attrs => hd attrs⟩

namespace HeapModel

mutual

theorem deepcopyVal_extends :
    ∀ fuel h v h' w, deepcopyVal fuel h v = some (h', w) → ∃ ext, h' = h ++ ext
  | 0, h, v, h', w => by simp [deepcopyVal]
  | fuel + 1, h, v, h', w => by
    intro heq
    cases v with
    | href a =>
      simp only [deepcopyVal] at heq
      split at heq
      · split at heq
        · next h1 ys hcopy =>
          obtain ⟨ext, rfl⟩ := deepcopyList_extends fuel h _ h1 ys hcopy
          simp only [alloc, Option.some.injEq, Prod.mk.injEq] at heq
          obtain ⟨rfl, rfl⟩ := heq
          exact ⟨ext ++ [Cell.clist ys], by simp⟩
        · simp at heq
      · split at heq
        · next h1 ws hcopy =>
          obtain ⟨ext, rfl⟩ := deepcopyEntries_extends fuel h _ h1 ws hcopy
          simp only [alloc, Option.some.injEq, Prod.mk.injEq] at heq
          obtain ⟨rfl, rfl⟩ := heq
          exact ⟨ext ++ [Cell.cdict ws], by simp⟩
        · simp at heq
      · split at heq
        · next h1 ws hcopy =>
          obtain ⟨ext, rfl⟩ := deepcopyEntries_extends fuel h _ h1 ws hcopy
          simp only [alloc, Option.some.injEq, Prod.mk.injEq] at heq
          obtain ⟨rfl, rfl⟩ := heq
          exact ⟨ext ++ [Cell.cobj ws], by simp⟩
        · simp at heq
      · simp at heq
    | hnone =>
      simp only [deepcopyVal, Option.some.injEq, Prod.mk.injEq] at heq
      obtain ⟨rfl, rfl⟩ := heq
      exact ⟨[], by simp⟩
    | hbool b =>
      simp only [deepcopyVal, Option.some.injEq, Prod.mk.injEq] at heq
      obtain ⟨rfl, rfl⟩ := heq
      exact ⟨[], by simp⟩
    | hint n =>
      simp only [deepcopyVal, Option.some.injEq, Prod.mk.injEq] at heq
      obtain ⟨rfl, rfl⟩ := heq
      exact ⟨[], by simp⟩
    | hstr s =>
      simp only [deepcopyVal, Option.some.injEq, Prod.mk.injEq] at heq
      obtain ⟨rfl, rfl⟩ := heq
      exact ⟨[], by simp⟩

theorem deepcopyList_extends :
    ∀ fuel h vs h' ws, deepcopyList fuel h vs = some (h', ws) → ∃ ext, h' = h ++ ext
  | 0, h, vs, h', ws => by simp [deepcopyList]
  | fuel + 1, h, [], h', ws => by
    simp only [deepcopyList, Option.some.injEq, Prod.mk.injEq]
    rintro ⟨rfl, rfl⟩
    exact ⟨[], by simp⟩
  | fuel + 1, h, v :: rest, h', ws => by
    intro heq
    simp only [deepcopyList] at heq
    split at heq
    · next h1 w hv =>
      obtain ⟨ext1, rfl⟩ := deepcopyVal_extends fuel h v h1 w hv
      split at heq
      · next h2 ws2 hrest =>
        obtain ⟨ext2, rfl⟩ := deepcopyList_extends fuel (h ++ ext1) rest h2 ws2 hrest
        simp only [Option.some.injEq, Prod.mk.injEq] at heq
        obtain ⟨rfl, rfl⟩ := heq
        exact ⟨ext1 ++ ext2, by simp⟩
      · simp at heq
    · simp at heq

theorem deepcopyEntries_extends :
    ∀ fuel h kvs h' ws, deepcopyEntries fuel h kvs = some (h', ws) → ∃ ext, h' = h ++ ext
  | 0, h, kvs, h', ws => by simp [deepcopyEntries]
  | fuel + 1, h, [], h', ws => by
    simp only [deepcopyEntries, Option.some.injEq, Prod.mk.injEq]
    rintro ⟨rfl, rfl⟩
    exact ⟨[], by simp⟩
  | fuel + 1, h, (k, v) :: rest, h', ws => by
    intro heq
    simp only [deepcopyEntries] at heq
    split at heq
    · next h1 w hv =>
      obtain ⟨ext1, rfl⟩ := deepcopyVal_extends fuel h v h1 w hv
      split at heq
      · next h2 ws2 hrest =>
        obtain ⟨ext2, rfl⟩ := deepcopyEntries_extends fuel (h ++ ext1) rest h2 ws2 hrest
        simp only [Option.some.injEq, Prod.mk.injEq] at heq
        obtain ⟨rfl, rfl⟩ := heq
        exact ⟨ext1 ++ ext2, by simp⟩
      · simp at heq
    · simp at heq

end

theorem toDictOnHeap_extends (fuel : Nat) (h : Heap) (objAddr : Nat)
    (h' : Heap) (result : List (String × HelmYaml.Val))
    (hrun : toDictOnHeap fuel h objAddr = some (h', result)) :
    ∃ ext, h' = h ++ ext := by
  simp only [toDictOnHeap] at hrun
  split at hrun
  · next attrs hcell =>
    split at hrun
    · next h1 attrsCopy hcopy =>
      split at hrun
      · next pureAttrs hread =>
        simp only [Option.some.injEq, Prod.mk.injEq] at hrun
        obtain ⟨rfl, rfl⟩ := hrun
        exact deepcopyEntries_extends fuel h attrs h1 attrsCopy hcopy
      · simp at hrun
    · simp at hrun
  · simp at hrun

end HeapModel

/-- C9: serializing a tagged object on the explicit heap (`to_dict` as
`deepcopy` of the attribute map followed by the pruning pass) does not
mutate the original object graph: every cell that existed before the call —
in particular the object's own attribute map, and any nested tagged
objects, sequences, and mappings it references — reads identically
afterwards; the call only allocates fresh copies at new addresses. -/
theorem to_dict_does_not_mutate (fuel : Nat) (h : HeapModel.Heap)
    (objAddr : Nat) (h' : HeapModel.Heap)
    (result : List (String × HelmYaml.Val))
    (hrun : HeapModel.toDictOnHeap fuel h objAddr = some (h', result)) :
    (∀ i, i < h.length → h'[i]? = h[i]?) ∧ h'[objAddr]? = h[objAddr]? := by
  obtain ⟨ext, rfl⟩ := HeapModel.toDictOnHeap_extends fuel h objAddr _ result hrun
  have hpre : ∀ i, i < h.length → (h ++ ext)[i]? = h[i]? := by
    intro i hi
    rw [List.getElem?_append_left hi]
  refine ⟨hpre, ?_⟩
  have haddr : objAddr < h.length := by
    by_contra hlt
    push_neg at hlt
    have : h[objAddr]? = none := List.getElem?_eq_none hlt
    simp only [HeapModel.toDictOnHeap, this] at hrun
    exact Option.noConfusion hrun
  exact hpre objAddr haddr

/-- Witness for C9 on a concrete heap: an object at address 0 whose
attribute map holds a reference to a mapping, a falsy scalar, and a
reference to a sequence containing a nested tagged object; after
serialization every original cell reads unchanged. -/
theorem to_dict_does_not_mutate_witness :
    (∀ i,
        i < ([HeapModel.Cell.cobj [("metadata", HeapModel.HVal.href 1),
                ("replicas", HeapModel.HVal.hint 0),
                ("items", HeapModel.HVal.href 2)],
              HeapModel.Cell.cdict [("name", HeapModel.HVal.hstr "pod")],
              HeapModel.Cell.clist [HeapModel.HVal.hint 7, HeapModel.HVal.href 3],
              HeapModel.Cell.cobj [("x", HeapModel.HVal.hint 5)]] :
            HeapModel.Heap).length →
        ([HeapModel.Cell.cobj [("metadata", HeapModel.HVal.href 1),
            ("replicas", HeapModel.HVal.hint 0),
            ("items", HeapModel.HVal.href 2)],
          HeapModel.Cell.cdict [("name", HeapModel.HVal.hstr "pod")],
          HeapModel.Cell.clist [HeapModel.HVal.hint 7, HeapModel.HVal.href 3],
          HeapModel.Cell.cobj [("x", HeapModel.HVal.hint 5)],
          HeapModel.Cell.cdict [("name", HeapModel.HVal.hstr "pod")],
          HeapModel.Cell.cobj [("x", HeapModel.HVal.hint 5)],
          HeapModel.Cell.clist [HeapModel.HVal.hint 7, HeapModel.HVal.href 5]] :
            HeapModel.Heap)[i]?
          = ([HeapModel.Cell.cobj [("metadata", HeapModel.HVal.href 1),
                ("replicas", HeapModel.HVal.hint 0),
                ("items", HeapModel.HVal.href 2)],
              HeapModel.Cell.cdict [("name", HeapModel.HVal.hstr "pod")],
              HeapModel.Cell.clist [HeapModel.HVal.hint 7, HeapModel.HVal.href 3],
              HeapModel.Cell.cobj [("x", HeapModel.HVal.hint 5)]] :
              HeapModel.Heap)[i]?)
    ∧ ([HeapModel.Cell.cobj [("metadata", HeapModel.HVal.href 1),
          ("replicas", HeapModel.HVal.hint 0),
          ("items", HeapModel.HVal.href 2)],
        HeapModel.Cell.cdict [("name", HeapModel.HVal.hstr "pod")],
        HeapModel.Cell.clist [HeapModel.HVal.hint 7, HeapModel.HVal.href 3],
        HeapModel.Cell.cobj [("x", HeapModel.HVal.hint 5)],
        HeapModel.Cell.cdict [("name", HeapModel.HVal.hstr "pod")],
        HeapModel.Cell.cobj [("x", HeapModel.HVal.hint 5)],
        HeapModel.Cell.clist [HeapModel.HVal.hint 7, HeapModel.HVal.href 5]] :
          HeapModel.Heap)[0]?
        = ([HeapModel.Cell.cobj [("metadata", HeapModel.HVal.href 1),
              ("replicas", HeapModel.HVal.hint 0),
              ("items", HeapModel.HVal.href 2)],
            HeapModel.Cell.cdict [("name", HeapModel.HVal.hstr "pod")],
            HeapModel.Cell.clist [HeapModel.HVal.hint 7, HeapModel.HVal.href 3],
            HeapModel.Cell.cobj [("x", HeapModel.HVal.hint 5)]] :
            HeapModel.Heap)[0]? :=
  to_dict_does_not_mutate 12
    [HeapModel.Cell.cobj [("metadata", HeapModel.HVal.href 1),
        ("replicas", HeapModel.HVal.hint 0),
        ("items", HeapModel.HVal.href 2)],
      HeapModel.Cell.cdict [("name", HeapModel.HVal.hstr "pod")],
      HeapModel.Cell.clist [HeapModel.HVal.hint 7, HeapModel.HVal.href 3],
      HeapModel.Cell.cobj [("x", HeapModel.HVal.hint 5)]]
    0
    [HeapModel.Cell.cobj [("metadata", HeapModel.HVal.href 1),
        ("replicas", HeapModel.HVal.hint 0),
        ("items", HeapModel.HVal.href 2)],
      HeapModel.Cell.cdict [("name", HeapModel.HVal.hstr "pod")],
      HeapModel.Cell.clist [HeapModel.HVal.hint 7, HeapModel.HVal.href 3],
      HeapModel.Cell.cobj [("x", HeapModel.HVal.hint 5)],
      HeapModel.Cell.cdict [("name", HeapModel.HVal.hstr "pod")],
      HeapModel.Cell.cobj [("x", HeapModel.HVal.hint 5)],
      HeapModel.Cell.clist [HeapModel.HVal.hint 7, HeapModel.HVal.href 5]]
    (HelmYaml.cleanNestedDict
      [("metadata", HelmYaml.Val.dict [("name", HelmYaml.Val.str "pod")]),
        ("replicas", HelmYaml.Val.int 0),
        ("items", HelmYaml.Val.list [HelmYaml.Val.int 7,
          HelmYaml.Val.obj [("x", HelmYaml.Val.int 5)]])])
    rfl

namespace Avionix

theorem handleInstallation_no_delete (w : World) (b : ChartBuilder)
    (options : Option HelmOptions) :
    Event.deleteChartDirectory ∉ (handleInstallation w b options).1 := by
  rcases hio : w.installOutcome with _ | out
  · simp [handleInstallation, runHelmInstall, hio]
  · rcases hcl : w.classify out with _ | tag
    · rcases hin : w.isInstalled with _ | _
      · simp [handleInstallation, runHelmInstall, hio, hcl, hin]
      · rcases huo : w.uninstallOutcome with _ | uout <;>
          simp [handleInstallation, runHelmInstall, uninstallChart,
            handleUninstallation, checkIfInstalled, runHelmUninstall,
            hio, hcl, hin, huo]
    · simp [handleInstallation, runHelmInstall, hio, hcl]

end Avionix

/-- C2: when a helm install invocation fails, a failure text matching a
known pattern raises the matching typed error with no cleanup uninstall
attempted; a text matching no pattern, with the release reported present,
leads to a cleanup uninstall being run before the generic post-failure
error is raised, and a failure of that cleanup uninstall propagates in
place of the generic error. -/
theorem install_failure_handling (w : Avionix.World) (b : Avionix.ChartBuilder)
    (options : Option Avionix.HelmOptions) (out : String)
    (hfail : w.installOutcome = some out) :
    (∀ tag, w.classify out = some tag →
      Avionix.handleInstallation w b options
        = ([Avionix.Event.helmCommand (b.getHelmInstallCommand options)],
            Except.error (Avionix.HelmError.factoryError tag)))
    ∧ (w.classify out = none → w.isInstalled = true →
        (w.uninstallOutcome = none →
          Avionix.handleInstallation w b options
            = ([Avionix.Event.helmCommand (b.getHelmInstallCommand options),
                Avionix.Event.listReleases, Avionix.Event.listReleases,
                Avionix.Event.helmCommand (b.getHelmUninstallCommand none)],
                Except.error (Avionix.HelmError.postUninstallError out)))
        ∧ (∀ uout, w.uninstallOutcome = some uout →
            Avionix.handleInstallation w b options
              = ([Avionix.Event.helmCommand (b.getHelmInstallCommand options),
                  Avionix.Event.listReleases, Avionix.Event.listReleases,
                  Avionix.Event.helmCommand (b.getHelmUninstallCommand none)],
                  Except.error (Avionix.HelmError.calledProcessError uout)))) := by
  constructor
  · intro tag htag
    simp [Avionix.handleInstallation, Avionix.runHelmInstall, hfail, htag]
  · intro hnone hinst
    constructor
    · intro hok
      simp [Avionix.handleInstallation, Avionix.runHelmInstall, hfail, hnone,
        hinst, Avionix.uninstallChart, Avionix.handleUninstallation,
        Avionix.checkIfInstalled, Avionix.runHelmUninstall, hok]
    · intro uout huout
      simp [Avionix.handleInstallation, Avionix.runHelmInstall, hfail, hnone,
        hinst, Avionix.uninstallChart, Avionix.handleUninstallation,
        Avionix.checkIfInstalled, Avionix.runHelmUninstall, huout]

/-- Witness for C2: a concrete world in which the install fails with
unclassified output, the release is reported present, and the cleanup
uninstall itself fails — the uninstall's error propagates instead of the
generic one, after the cleanup attempt appears on the trace. -/
theorem install_failure_handling_witness :
    Avionix.handleInstallation
        ⟨true, some "boom", none, some "uboom", none, fun _ => none⟩
        ⟨⟨"test"⟩, [], none, false, none, "/w"⟩ none
      = ([Avionix.Event.helmCommand "helm install test /w/test",
          Avionix.Event.listReleases, Avionix.Event.listReleases,
          Avionix.Event.helmCommand "helm uninstall test"],
          Except.error (Avionix.HelmError.calledProcessError "uboom")) :=
  ((install_failure_handling
      ⟨true, some "boom", none, some "uboom", none, fun _ => none⟩
      ⟨⟨"test"⟩, [], none, false, none, "/w"⟩ none "boom" rfl).2
    rfl rfl).2 "uboom" rfl

/-- C6: upgrade and uninstall on a release the presence check reports
absent raise `ChartNotInstalledError`; for upgrade the error is raised
right after the presence query — before any filesystem interaction (no
chart regeneration) and before any helm command is issued. -/
theorem absent_release_raises_not_installed (w : Avionix.World)
    (b : Avionix.ChartBuilder) (options : Option Avionix.HelmOptions)
    (h : w.isInstalled = false) :
    Avionix.upgradeChart w b options
      = ([Avionix.Event.listReleases],
          Except.error (Avionix.HelmError.chartNotInstalledError
            ("Error: chart \"" ++ b.chartInfo.name ++ "\" is not installed")))
    ∧ Avionix.uninstallChart w b options
      = ([Avionix.Event.listReleases],
          Except.error (Avionix.HelmError.chartNotInstalledError
            ("Error: chart \"" ++ b.chartInfo.name ++ "\" is not installed")))
    ∧ Avionix.Event.generateChart ∉ (Avionix.upgradeChart w b options).1
    ∧ (∀ cmd, Avionix.Event.helmCommand cmd ∉ (Avionix.upgradeChart w b options).1) := by
  have hup : Avionix.upgradeChart w b options
      = ([Avionix.Event.listReleases],
          Except.error (Avionix.HelmError.chartNotInstalledError
            ("Error: chart \"" ++ b.chartInfo.name ++ "\" is not installed"))) := by
    simp [Avionix.upgradeChart, Avionix.checkIfInstalled, h]
  have hun : Avionix.uninstallChart w b options
      = ([Avionix.Event.listReleases],
          Except.error (Avionix.HelmError.chartNotInstalledError
            ("Error: chart \"" ++ b.chartInfo.name ++ "\" is not installed"))) := by
    simp [Avionix.uninstallChart, Avionix.handleUninstallation,
      Avionix.checkIfInstalled, h]
  refine ⟨hup, hun, ?_, ?_⟩
  · rw [hup]; simp
  · intro cmd; rw [hup]; simp

/-- Witness for C6: a concrete absent release. -/
theorem absent_release_raises_not_installed_witness :
    Avionix.upgradeChart ⟨false, none, none, none, none, fun _ => none⟩
        ⟨⟨"test"⟩, [], none, false, none, "/w"⟩ none
      = ([Avionix.Event.listReleases],
          Except.error (Avionix.HelmError.chartNotInstalledError
            "Error: chart \"test\" is not installed"))
    ∧ Avionix.uninstallChart ⟨false, none, none, none, none, fun _ => none⟩
        ⟨⟨"test"⟩, [], none, false, none, "/w"⟩ none
      = ([Avionix.Event.listReleases],
          Except.error (Avionix.HelmError.chartNotInstalledError
            "Error: chart \"test\" is not installed")) :=
  ⟨(absent_release_raises_not_installed
      ⟨false, none, none, none, none, fun _ => none⟩
      ⟨⟨"test"⟩, [], none, false, none, "/w"⟩ none rfl).1,
    (absent_release_raises_not_installed
      ⟨false, none, none, none, none, fun _ => none⟩
      ⟨⟨"test"⟩, [], none, false, none, "/w"⟩ none rfl).2.1⟩

/-- C10: `install_chart` deletes the generated chart directory only on the
success path — when the installation handler raises any error, that error
propagates from `install_chart`, the chart was generated, and no deletion
is attempted even with `keep_chart` false; when the handler succeeds and
`keep_chart` is false, the deletion does happen. -/
theorem install_failure_leaves_chart_on_disk (w : Avionix.World)
    (b : Avionix.ChartBuilder) (options : Option Avionix.HelmOptions)
    (hkeep : b.keepChart = false) :
    (∀ e, (Avionix.handleInstallation w b options).2 = Except.error e →
      (Avionix.installChart w b options).2 = Except.error e
      ∧ Avionix.Event.generateChart ∈ (Avionix.installChart w b options).1
      ∧ Avionix.Event.deleteChartDirectory ∉ (Avionix.installChart w b options).1)
    ∧ ((Avionix.handleInstallation w b options).2 = Except.ok ()
        → Avionix.Event.deleteChartDirectory ∈ (Avionix.installChart w b options).1) := by
  have hnodel := Avionix.handleInstallation_no_delete w b options
  rcases hh : Avionix.handleInstallation w b options with ⟨t1, r1⟩
  rw [hh] at hnodel
  constructor
  · intro e herr
    have hr : r1 = Except.error e := herr
    subst hr
    refine ⟨?_, ?_, ?_⟩
    · simp [Avionix.installChart, hh]
    · simp [Avionix.installChart, hh]
    · simp [Avionix.installChart, hh, hnodel]
  · intro hok
    have hr : r1 = Except.ok () := hok
    subst hr
    simp [Avionix.installChart, hh, hkeep]

/-- Witness for C10: a concrete failing install (unclassified output,
release absent) with `keep_chart` false — the generic error propagates and
no delete event is on the trace. -/
theorem install_failure_leaves_chart_on_disk_witness :
    (Avionix.installChart ⟨false, some "boom", none, none, none, fun _ => none⟩
        ⟨⟨"test"⟩, [], none, false, none, "/w"⟩ none).2
      = Except.error (Avionix.HelmError.postUninstallError "boom")
    ∧ Avionix.Event.generateChart
        ∈ (Avionix.installChart ⟨false, some "boom", none, none, none, fun _ => none⟩
            ⟨⟨"test"⟩, [], none, false, none, "/w"⟩ none).1
    ∧ Avionix.Event.deleteChartDirectory
        ∉ (Avionix.installChart ⟨false, some "boom", none, none, none, fun _ => none⟩
            ⟨⟨"test"⟩, [], none, false, none, "/w"⟩ none).1 :=
  (install_failure_leaves_chart_on_disk
      ⟨false, some "boom", none, none, none, fun _ => none⟩
      ⟨⟨"test"⟩, [], none, false, none, "/w"⟩ none rfl).1
    (Avionix.HelmError.postUninstallError "boom") rfl

namespace Avionix

theorem lookupCount_updateCount_self :
    ∀ (counts : List (String × Nat)) (kind : String) (n : Nat),
      lookupCount (updateCount counts kind n) kind = some n
  | [], kind, n => by simp [updateCount, lookupCount]
  | (k, m) :: rest, kind, n => by
    by_cases h : k = kind
    · simp [updateCount, lookupCount, h]
    · simp [updateCount, lookupCount, h,
        lookupCount_updateCount_self rest kind n]

theorem lookupCount_updateCount_other :
    ∀ (counts : List (String × Nat)) (kind : String) (n : Nat) (k2 : String),
      k2 ≠ kind →
      lookupCount (updateCount counts kind n) k2 = lookupCount counts k2
  | [], kind, n, k2, hne => by
    simp [updateCount, lookupCount, Ne.symm hne]
  | (k, m) :: rest, kind, n, k2, hne => by
    by_cases h : k = kind
    · subst h
      simp [updateCount, lookupCount, Ne.symm hne]
    · by_cases h2 : k = k2
      · subst h2
        simp [updateCount, lookupCount, h]
      · simp [updateCount, lookupCount, h, h2,
          lookupCount_updateCount_other rest kind n k2 hne]

theorem countKind_append (kind : String) :
    ∀ l1 l2, countKind kind (l1 ++ l2) = countKind kind l1 + countKind kind l2
  | [], l2 => by simp [countKind]
  | k :: rest, l2 => by
    simp [countKind, countKind_append kind rest l2]
    omega

theorem templateFileNames_eq_spec :
    ∀ (kinds : List String) (counts : List (String × Nat)) (seen : List String),
      (∀ k, lookupCount counts k
          = if countKind k seen = 0 then none else some (countKind k seen - 1)) →
      templateFileNames counts kinds = specTemplateNames seen kinds
  | [], counts, seen, hinv => by simp [templateFileNames, specTemplateNames]
  | kind :: rest, counts, seen, hinv => by
    have hk := hinv kind
    simp only [templateFileNames, specTemplateNames]
    have hn : (match lookupCount counts kind with
        | none => 0
        | some m => m + 1) = countKind kind seen := by
      rw [hk]
      by_cases h0 : countKind kind seen = 0
      · simp [h0]
      · simp only [if_neg h0]
        exact Nat.succ_pred_eq_of_pos (Nat.pos_of_ne_zero h0)
    rw [hn]
    congr 1
    apply templateFileNames_eq_spec rest
    intro k
    by_cases hkk : k = kind
    · subst hkk
      rw [lookupCount_updateCount_self, countKind_append]
      simp [countKind]
    · rw [lookupCount_updateCount_other counts kind _ k hkk, hinv k,
        countKind_append]
      simp [countKind, Ne.symm hkk]

theorem namesForKind_spec :
    ∀ (kinds : List String) (kind : String) (seen : List String),
      namesForKind kind kinds (specTemplateNames seen kinds)
        = (List.range' (countKind kind seen) (countKind kind kinds)).map
            (fun i => kind ++ "-" ++ toString i ++ ".yaml")
  | [], kind, seen => by simp [namesForKind, specTemplateNames, countKind]
  | k :: rest, kind, seen => by
    by_cases h : k = kind
    · subst h
      have hrec := namesForKind_spec rest k (seen ++ [k])
      have hc1 : countKind k (seen ++ [k]) = countKind k seen + 1 := by
        rw [countKind_append]
        simp [countKind]
      have hc2 : countKind k (k :: rest) = countKind k rest + 1 := by
        simp [countKind, Nat.add_comm]
      rw [hc1] at hrec
      simp only [specTemplateNames, namesForKind, if_true]
      rw [hrec, hc2, List.range'_succ, List.map_cons]
    · have hrec := namesForKind_spec rest kind (seen ++ [k])
      have hc1 : countKind kind (seen ++ [k]) = countKind kind seen := by
        rw [countKind_append]
        simp [countKind, h]
      have hc2 : countKind kind (k :: rest) = countKind kind rest := by
        simp [countKind, h]
      rw [hc1] at hrec
      simp only [specTemplateNames, namesForKind]
      rw [if_neg h, hrec, hc2]

end Avionix

/-- C5: for every object collection (represented by its list of kinds), the
filename loop of `generate_chart` assigns each object the name
`{kind}-{n}.yaml` with `n` the number of earlier objects of the same kind,
and consequently the filenames produced for the objects of one kind, in
original list order, are exactly `{kind}-0.yaml` … `{kind}-(K-1).yaml`
where `K` is that kind's number of occurrences. -/
theorem template_filenames_per_kind (kinds : List String) (kind : String) :
    Avionix.templateFileNames [] kinds = Avionix.specTemplateNames [] kinds
    ∧ Avionix.namesForKind kind kinds (Avionix.templateFileNames [] kinds)
        = (List.range (Avionix.countKind kind kinds)).map
            (fun i => kind ++ "-" ++ toString i ++ ".yaml") := by
  have he : Avionix.templateFileNames [] kinds
      = Avionix.specTemplateNames [] kinds :=
    Avionix.templateFileNames_eq_spec kinds [] []
      (by intro k; simp [Avionix.lookupCount, Avionix.countKind])
  refine ⟨he, ?_⟩
  rw [he, Avionix.namesForKind_spec kinds kind []]
  have h0 : Avionix.countKind kind [] = 0 := by simp [Avionix.countKind]
  rw [h0, ← List.range_eq_range' (Avionix.countKind kind kinds)]

/-- C3's divergence, evaluated: `__delete_chart_directory` removes the
directory named by the bare chart name (relative to the working directory),
not the chart folder under `output_directory`; so for a builder constructed
with an output directory, regenerating with fewer objects leaves the first
run's `Pod-1.yaml` in place, while a `test/...` path in the working
directory would be removed. -/
theorem stale_template_survives_regeneration :
    "out/test/templates/Pod-1.yaml"
      ∈ Avionix.ChartBuilder.generateChartFS
          ⟨⟨"test"⟩, ["Pod"], some "out", false, none, "/w"⟩
          (Avionix.ChartBuilder.generateChartFS
            ⟨⟨"test"⟩, ["Pod", "Pod"], some "out", false, none, "/w"⟩ [])
    ∧ Avionix.ChartBuilder.deleteChartDirectoryFS
        ⟨⟨"test"⟩, ["Pod"], some "out", false, none, "/w"⟩
        ["out/test/templates/Pod-1.yaml"]
      = ["out/test/templates/Pod-1.yaml"]
    ∧ Avionix.ChartBuilder.deleteChartDirectoryFS
        ⟨⟨"test"⟩, ["Pod"], some "out", false, none, "/w"⟩
        ["test/templates/Pod-1.yaml"]
      = [] := by
  refine ⟨by decide, by decide, by decide⟩

/-- C4's divergence, evaluated: `run_helm_uninstall` builds its command with
no arguments, so the caller's options never reach the command line — the
issued command is `helm uninstall test`, although the flag-rendering rule
applied to the supplied options would produce
`helm uninstall test --timeout 30s`. -/
theorem uninstall_ignores_caller_options :
    (Avionix.runHelmUninstall ⟨true, none, none, none, none, fun _ => none⟩
        ⟨⟨"test"⟩, [], none, false, none, "/w"⟩
        (some [("timeout", some "30s")])).1
      = [Avionix.Event.helmCommand "helm uninstall test"]
    ∧ Avionix.ChartBuilder.getHelmUninstallCommand
        ⟨⟨"test"⟩, [], none, false, none, "/w"⟩ (some [("timeout", some "30s")])
      = "helm uninstall test --timeout 30s"
    ∧ ("helm uninstall test" : String) ≠ "helm uninstall test --timeout 30s" :=
  ⟨rfl, rfl, by decide⟩

/-- C8 counterexample: with namespace `ns` configured, the
`helm dependency update` command carries no namespace flag at all, and with
option flags present the namespace flag on the install command is not
trailing (it precedes the rendered options). -/
theorem dependency_update_lacks_namespace_flag :
    Avionix.ChartBuilder.getDependencyUpdateCommand
        ⟨⟨"test"⟩, [], none, false, some "ns", "/w"⟩
      = "helm dependency update /w/test"
    ∧ ¬ (" -n ns").toList <:+: ("helm dependency update /w/test").toList
    ∧ Avionix.ChartBuilder.getHelmInstallCommand
        ⟨⟨"test"⟩, [], none, false, some "ns", "/w"⟩ (some [("wait", none)])
      = "helm install test /w/test -n ns --wait"
    ∧ Avionix.strHasSuffix " -n ns"
        (Avionix.ChartBuilder.getHelmInstallCommand
          ⟨⟨"test"⟩, [], none, false, some "ns", "/w"⟩ (some [("wait", none)]))
      = false :=
  ⟨rfl, by decide, rfl, rfl⟩

/-- C8 (amended): when a namespace is configured at construction time, the
install, upgrade and uninstall command lines carry the namespace flag right
after their base arguments and before any rendered option flags (so it is
trailing exactly when no options render), and the spec-modelled listing
query is namespace-scoped; the dependency-update command line never carries
the flag.  When no namespace is configured, the flag is omitted from every
command line. -/
theorem namespace_flag_placement (b : Avionix.ChartBuilder)
    (options : Option Avionix.HelmOptions) :
    (∀ ns, b.namespaceOpt = some ns →
      b.getHelmInstallCommand options
        = "helm install " ++ b.chartInfo.name ++ " "
            ++ Avionix.resolvePath b.cwd b.chartFolderPath ++ " -n " ++ ns
            ++ Avionix.parseOptions options
      ∧ b.getHelmUpgradeCommand options
        = "helm upgrade " ++ b.chartInfo.name ++ " " ++ b.chartFolderPath
            ++ " -n " ++ ns ++ Avionix.parseOptions options
      ∧ b.getHelmUninstallCommand options
        = "helm uninstall " ++ b.chartInfo.name ++ " -n " ++ ns
            ++ Avionix.parseOptions options
      ∧ Avionix.getHelmListCommand b.namespaceOpt = "helm list -n " ++ ns
      ∧ b.getDependencyUpdateCommand
        = "helm dependency update "
            ++ Avionix.resolvePath b.cwd b.chartFolderPath)
    ∧ (b.namespaceOpt = none →
      b.getHelmInstallCommand options
        = "helm install " ++ b.chartInfo.name ++ " "
            ++ Avionix.resolvePath b.cwd b.chartFolderPath
            ++ Avionix.parseOptions options
      ∧ b.getHelmUpgradeCommand options
        = "helm upgrade " ++ b.chartInfo.name ++ " " ++ b.chartFolderPath
            ++ Avionix.parseOptions options
      ∧ b.getHelmUninstallCommand options
        = "helm uninstall " ++ b.chartInfo.name ++ Avionix.parseOptions options
      ∧ Avionix.getHelmListCommand b.namespaceOpt = "helm list"
      ∧ b.getDependencyUpdateCommand
        = "helm dependency update "
            ++ Avionix.resolvePath b.cwd b.chartFolderPath) := by
  constructor
  · intro ns hns
    refine ⟨?_, ?_, ?_, ?_, rfl⟩ <;>
      simp [Avionix.ChartBuilder.getHelmInstallCommand,
        Avionix.ChartBuilder.getHelmUpgradeCommand,
        Avionix.ChartBuilder.getHelmUninstallCommand,
        Avionix.ChartBuilder.handleNamespace, Avionix.getHelmListCommand, hns]
  · intro hns
    refine ⟨?_, ?_, ?_, ?_, rfl⟩ <;>
      simp [Avionix.ChartBuilder.getHelmInstallCommand,
        Avionix.ChartBuilder.getHelmUpgradeCommand,
        Avionix.ChartBuilder.getHelmUninstallCommand,
        Avionix.ChartBuilder.handleNamespace, Avionix.getHelmListCommand, hns]

/-- Witness for C8 (amended) at a concrete builder with namespace `ns` and
one valueless option flag. -/
theorem namespace_flag_placement_witness :
    Avionix.ChartBuilder.getHelmInstallCommand
        ⟨⟨"demo"⟩, [], none, false, some "ns", "/w"⟩ (some [("wait", none)])
      = "helm install " ++ "demo" ++ " " ++ "/w/demo" ++ " -n " ++ "ns" ++ " --wait" :=
  ((namespace_flag_placement ⟨⟨"demo"⟩, [], none, false, some "ns", "/w"⟩
      (some [("wait", none)])).1 "ns" rfl).1
